import Mathlib

/-
Verification of the btgym datafeed sampling core (btgym/datafeed/base.py).

Timestamps are modelled as natural numbers counting minutes from an epoch
that falls on a Monday at 00:00, so that `weekday t = t / 1440 % 7` agrees
with Python's `datetime.weekday()` convention (Monday = 0) and
`midnight t` is the `.date()` realignment target used by `start_00`.

Random beta-distribution draws are modelled as an oracle stream
`ω : ℕ → ℕ × ℕ`, each pair `(p, d)` standing for the exact rational value
`p / d` in `[0, 1]` produced by `numpy.random.beta`.  Python's `int()`
truncation and banker's `round()` applied to `width * draw` are embedded
exactly as integer operations (`truncScale`, `roundScale`).

Python list slicing, including negative-index wrap-around and clamping, is
embedded by `pySlice`; `pandas.Index.get_loc(_, method='nearest')` by
`nearestIdx` (closest timestamp, ties to the earlier row).
-/

namespace BTGym

/-! ## Python numeric primitives -/

/-- Python `int()` applied to the exact rational `n / d` (truncation toward
zero); `d` is a positive denominator. -/
def truncDiv (n : ℤ) (d : ℕ) : ℤ := if n < 0 then -((-n) / d) else n / d

/-- Python 3 `round()` applied to the exact rational `n / d`: round half to
even.  For `d > 0`, `n / d` and `n % d` are floor division and remainder. -/
def halfEvenRound (n : ℤ) (d : ℕ) : ℤ :=
  let f := n / d
  let r := n % d
  if 2 * r < d then f else if (d : ℤ) < 2 * r then f + 1 else if f % 2 = 0 then f else f + 1

/-- Value of `int(w * (p / d))` for an oracle draw `(p, d)`. -/
def truncScale (w : ℤ) (u : ℕ × ℕ) : ℤ := truncDiv (w * u.1) u.2

/-- Value of `round(w * (p / d))` for an oracle draw `(p, d)`. -/
def roundScale (w : ℤ) (u : ℕ × ℕ) : ℤ := halfEvenRound (w * u.1) u.2

/-- Oracle draw `(p, d)` denotes a Beta-distributed value `p / d ∈ [0, 1]`. -/
def ValidDraw (u : ℕ × ℕ) : Prop := u.1 ≤ u.2 ∧ 0 < u.2

instance : DecidablePred ValidDraw := fun u => by unfold ValidDraw; infer_instance

/-- Python slice index normalization: negative indexes count from the end,
and out-of-range indexes are clamped to `[0, len]`. -/
def pyIdx (len : ℕ) (i : ℤ) : ℕ := if i < 0 then ((len : ℤ) + i).toNat else min len i.toNat

/-- Python slice `l[a:b]` (unit step). -/
def pySlice (l : List α) (a b : ℤ) : List α :=
  let lo := pyIdx l.length a
  let hi := pyIdx l.length b
  (l.drop lo).take (hi - lo)

/-! ## Calendar model -/

/-- Weekday of a timestamp given in minutes, Monday = 0 (epoch is a Monday). -/
def weekday (t : ℕ) : ℕ := t / 1440 % 7

/-- Midnight (00:00) of the calendar day holding `t`; models `.date()`. -/
def midnight (t : ℕ) : ℕ := t / 1440 * 1440

/-- Absolute distance between two timestamps. -/
def tsDist (a b : ℕ) : ℕ := max a b - min a b

/-- Scanning worker for `nearestIdx`: `i` is the index of the next element,
`best` the index of the closest element so far, `bd` its distance. -/
def nearestIdxAux (t : ℕ) : List ℕ → ℕ → ℕ → ℕ → ℕ
  | [], _, best, _ => best
  | x :: xs, i, best, bd =>
    if tsDist x t < bd then nearestIdxAux t xs (i + 1) i (tsDist x t)
    else nearestIdxAux t xs (i + 1) best bd

/-- Model of `pandas.Index.get_loc(t, method='nearest')`: index of the row
whose timestamp is closest to `t`, ties broken toward the earlier row. -/
def nearestIdx : List ℕ → ℕ → ℕ
  | [], _ => 0
  | x :: xs, t => nearestIdxAux t xs 1 0 (tsDist x t)

/-! ## Data loading (`read_csv`) -/

/-- Worker for `dedupKeepFirst`; `seen` holds values already emitted. -/
def dedupAux : List ℕ → List ℕ → List ℕ
  | _, [] => []
  | seen, x :: xs => if x ∈ seen then dedupAux seen xs else x :: dedupAux (x :: seen) xs

/-- Model of `index.duplicated(keep='first')` removal: keeps the first
occurrence of every timestamp of one file. -/
def dedupKeepFirst (l : List ℕ) : List ℕ := dedupAux [] l

/-- Count of removed duplicate rows reported for one file (`how_bad`). -/
def removedDuplicates (l : List ℕ) : ℕ := l.length - (dedupKeepFirst l).length

/-- Model of `read_csv` over a list of files (each a list of row timestamps):
per-file duplicate removal, then `pd.concat`. -/
def loadFiles (files : List (List ℕ)) : List ℕ := (files.map dedupKeepFirst).flatten

/-! ## Sampler (`_sample_interval`) -/

/-- Failure conditions surfaced by the datafeed core.  `exhausted` models the
post-loop `AssertionError` carrying the attempt counter; `indexFault` models
an `IndexError` from `.index[0]` on an empty slice; `insufficientData` the
train/test-size assertions of `reset`; `divByZero` the `ZeroDivisionError`
of the Trial break-point formula. -/
inductive SampleFail
  | noData
  | invalidParameter
  | invalidInterval
  | indexFault
  | exhausted (attempts : ℕ)
  | notReady
  | invalidType
  | insufficientData
  | divByZero
deriving DecidableEq, Repr

/-- Accepted sample: `first_row` metadata, the sampled row slice, and the
adjusted start position `adj_timedate`. -/
structure EpisodeSample where
  first_row : ℕ
  rows : List ℕ
  adj_timedate : ℕ
deriving DecidableEq, Repr

instance instDecEqExcept {ε α : Type} [DecidableEq ε] [DecidableEq α] :
    DecidableEq (Except ε α) := fun a b =>
  match a, b with
  | .error e, .error f =>
    if h : e = f then .isTrue (by rw [h]) else .isFalse (fun hh => h (Except.error.inj hh))
  | .ok x, .ok y =>
    if h : x = y then .isTrue (by rw [h]) else .isFalse (fun hh => h (Except.ok.inj hh))
  | .error _, .ok _ => .isFalse (fun hh => Except.noConfusion hh)
  | .ok _, .error _ => .isFalse (fun hh => Except.noConfusion hh)

/-- Sampling attributes read by `_sample_interval` (set at `reset` time). -/
structure SamplerCfg where
  sample_num_records : ℕ
  max_sample_len_delta : ℤ
  max_time_gap : ℤ
  start_weekdays : List ℕ
  start_00 : Bool
deriving DecidableEq, Repr

/-- Model of `self.data[i:i+1].index[0]`: timestamp of the row selected by a
Python (possibly negative) index, `none` when the slice is empty. -/
def getTs (data : List ℕ) (i : ℤ) : Option ℕ := (pySlice data i (i + 1)).head?

/-- Start row of the initial draw of one outer attempt:
`interval[0] + int((interval[-1] - interval[0] - sample_num_records) * random_beta(...))`. -/
def drawStart (lo hi : ℤ) (records : ℕ) (u : ℕ × ℕ) : ℤ :=
  lo + truncScale (hi - lo - records) u

/-- Start row of a weekday-loop redraw; the source uses Python `round` here
instead of `int`. -/
def redrawStart (lo hi : ℤ) (records : ℕ) (u : ℕ × ℕ) : ℤ :=
  lo + roundScale (hi - lo - records) u

/-- Value of `adj_timedate`: the drawn timestamp, snapped to its day's
midnight when `start_00` is set. -/
def adjStart (cfg : SamplerCfg) (ts : ℕ) : ℕ := if cfg.start_00 then midnight ts else ts

/-- Value of `sampled_data = self.data[first_row : first_row + sample_num_records]`. -/
def sliceAt (data : List ℕ) (f records : ℕ) : List ℕ :=
  pySlice data (f : ℤ) ((f : ℤ) + records)

/-- Inner weekday-redraw loop of `_sample_interval`
(`while not sample_first_day.weekday() in self.start_weekdays and attempts <= max_attempts`).
State: draw cursor `k`, shared `attempts` counter, current `first_row` and its
timestamp.  `fuel` only bounds recursion depth; it is proved sufficient below. -/
def weekdayLoopF (data sw : List ℕ) (lo hi : ℤ) (records : ℕ) (ω : ℕ → ℕ × ℕ) :
    ℕ → ℕ → ℕ → ℤ → ℕ → Option (Except SampleFail (ℕ × ℕ × ℤ × ℕ))
  | 0, _, _, _, _ => none
  | fuel + 1, k, attempts, fr, ts =>
    if weekday ts ∈ sw ∨ 100 < attempts then some (.ok (k, attempts, fr, ts))
    else
      match getTs data (redrawStart lo hi records (ω k)) with
      | none => some (.error .indexFault)
      | some ts2 =>
        weekdayLoopF data sw lo hi records ω fuel (k + 1) (attempts + 1)
          (redrawStart lo hi records (ω k)) ts2

/-- Outer retry loop of `_sample_interval` (`while attempts <= max_attempts`):
draw a start row (Python `int` truncation), run the weekday loop, check the
`attempts` assertion, realign the start when `start_00`, slice
`sample_num_records` rows and test the time-gap bound. -/
def sampleLoopF (data : List ℕ) (cfg : SamplerCfg) (lo hi : ℤ) (ω : ℕ → ℕ × ℕ) :
    ℕ → ℕ → ℕ → Option (Except SampleFail EpisodeSample)
  | 0, _, _ => none
  | fuel + 1, k, attempts =>
    if 100 < attempts then some (.error (.exhausted attempts))
    else
      match getTs data (drawStart lo hi cfg.sample_num_records (ω k)) with
      | none => some (.error .indexFault)
      | some ts0 =>
        match weekdayLoopF data cfg.start_weekdays lo hi cfg.sample_num_records ω 102
            (k + 1) attempts (drawStart lo hi cfg.sample_num_records (ω k)) ts0 with
        | none => none
        | some (.error e) => some (.error e)
        | some (.ok (k1, att1, _, ts1)) =>
          if 100 < att1 then some (.error (.exhausted att1))
          else
            match (sliceAt data (nearestIdx data (adjStart cfg ts1)) cfg.sample_num_records).head?,
                (sliceAt data (nearestIdx data (adjStart cfg ts1)) cfg.sample_num_records).getLast? with
            | some t0, some t1 =>
              if (t1 : ℤ) - t0 - cfg.max_sample_len_delta < cfg.max_time_gap then
                some (.ok ⟨nearestIdx data (adjStart cfg ts1),
                  sliceAt data (nearestIdx data (adjStart cfg ts1)) cfg.sample_num_records,
                  adjStart cfg ts1⟩)
              else sampleLoopF data cfg lo hi ω fuel k1 (att1 + 1)
            | _, _ => some (.error .indexFault)

/-- Model of `BTgymDataset._sample_interval`, preconditions included, with an
explicit recursion-depth bound `fuel` (`none` = fuel ran out; fuel `102` is
proved sufficient). -/
def sampleIntervalF (fuel : ℕ) (data : List ℕ) (cfg : SamplerCfg) (bAlpha bBeta : ℚ)
    (lo hi : ℤ) (ω : ℕ → ℕ × ℕ) : Option (Except SampleFail EpisodeSample) :=
  if data.length = 0 then some (.error .noData)
  else if ¬ (0 < bAlpha ∧ 0 < bBeta) then some (.error .invalidParameter)
  else if ¬ (lo < hi ∧ hi ≤ (data.length : ℤ)) then some (.error .invalidInterval)
  else sampleLoopF data cfg lo hi ω fuel 0 0

/-- Model of `BTgymDataset._sample_interval` at the proved-sufficient depth. -/
def sampleInterval (data : List ℕ) (cfg : SamplerCfg) (bAlpha bBeta : ℚ)
    (lo hi : ℤ) (ω : ℕ → ℕ × ℕ) : Except SampleFail EpisodeSample :=
  (sampleIntervalF 102 data cfg bAlpha bBeta lo hi ω).getD (.error (.exhausted 0))

/-! ## `reset`: train/test interval computation -/

/-- Parameters read by `BTgymDataset.reset`; durations are given in minutes
(`timedelta.total_seconds() / 60`), `timeframe` in minutes per record. -/
structure DataParams where
  timeframe : ℕ
  sample_duration_min : ℕ
  test_period_min : ℕ
deriving DecidableEq, Repr

/-- `sample_num_records = int(max_sample_len_delta.total_seconds() / (60 * timeframe))`. -/
def sampleRecordsOf (p : DataParams) : ℕ := p.sample_duration_min / p.timeframe

/-- `test_num_records = round(test_range_delta.total_seconds() / (60 * timeframe))`. -/
def testRecordsOf (p : DataParams) : ℤ := halfEvenRound (p.test_period_min : ℤ) p.timeframe

/-- Interval state a node holds after a successful `reset`. -/
structure NodeState where
  data : List ℕ
  train_interval : ℤ × ℤ
  test_interval : ℤ × ℤ
  sample_num : ℕ
  is_ready : Bool
deriving DecidableEq, Repr

/-- Model of `BTgymDataset.reset` (Domain/base level) applied to loaded rows:
computes the duration-anchored break point and checks the two
`InsufficientData` assertions. -/
def baseReset (p : DataParams) (data : List ℕ) : Except SampleFail NodeState :=
  if (data.length : ℤ) - testRecordsOf p < (sampleRecordsOf p : ℤ) then
    .error .insufficientData
  else if 0 < testRecordsOf p ∧ testRecordsOf p < (sampleRecordsOf p : ℤ) then
    .error .insufficientData
  else .ok ⟨data, (0, (data.length : ℤ) - testRecordsOf p),
    ((data.length : ℤ) - testRecordsOf p, (data.length : ℤ)), 0, true⟩

/-- Break-point row of `BTgymBaseDataTrial.reset`:
`round(train_num_records * data.shape[0] / (train_num_records + test_num_records))`. -/
def trialBreakPoint (train_num_records test_num_records : ℕ) (data : List ℕ) : ℤ :=
  halfEvenRound ((train_num_records : ℤ) * (data.length : ℤ))
    (train_num_records + test_num_records)

/-- Model of `BTgymBaseDataTrial.reset` applied to loaded rows: the
record-count-anchored proportional break point, one-row gap, no size checks. -/
def trialReset (train_num_records test_num_records : ℕ) (data : List ℕ) :
    Except SampleFail NodeState :=
  if train_num_records + test_num_records = 0 then .error .divByZero
  else .ok ⟨data, (0, trialBreakPoint train_num_records test_num_records data),
    (trialBreakPoint train_num_records test_num_records data + 1, (data.length : ℤ)), 0, true⟩

/-! ## Node lifecycle (`read_csv` caching + `reset` + `sample`) -/

/-- Mutable node state relevant to `reset` idempotence: `read_csv` keeps the
already-loaded `data` and ignores the file argument when `data` is present. -/
structure BNode where
  params : DataParams
  data : Option (List ℕ)
  train_interval : ℤ × ℤ
  test_interval : ℤ × ℤ
  sample_num : ℕ
  is_ready : Bool
deriving DecidableEq, Repr

/-- Model of `read_csv` called from `reset`: returns the rows the node ends
up holding (cached data wins over the supplied files). -/
def readCsvModel (nd : BNode) (files : List (List ℕ)) : List ℕ :=
  match nd.data with
  | some d => d
  | none => loadFiles files

/-- Model of `BTgymDataset.reset` as a state transition on a node. -/
def resetStep (nd : BNode) (files : List (List ℕ)) : Except SampleFail BNode :=
  match baseReset nd.params (readCsvModel nd files) with
  | .error e => .error e
  | .ok st =>
    .ok { nd with
           data := some (readCsvModel nd files)
           train_interval := st.train_interval
           test_interval := st.test_interval
           sample_num := 0
           is_ready := true }

/-- Child produced by `sample()`: the sampled slice plus the stamped
`metadata['type']` and `metadata['sample_num']`. -/
structure ChildSample where
  sample : EpisodeSample
  meta_type : ℕ
  meta_sample_num : ℕ
deriving DecidableEq, Repr

/-- Model of `BTgymDataset.sample` (`sample_type` 0 = train, 1 = test): picks
the interval, delegates to `_sample_interval` (test forced uniform), stamps
metadata and increments `sample_num`; errors propagate with state unchanged. -/
def sampleStep (cfg : SamplerCfg) (st : NodeState) (sample_type : ℕ) (bAlpha bBeta : ℚ)
    (ω : ℕ → ℕ × ℕ) : Except SampleFail ChildSample × NodeState :=
  if ¬ st.is_ready then (.error .notReady, st)
  else if ¬ (sample_type = 0 ∨ sample_type = 1) then (.error .invalidType, st)
  else
    match (if sample_type = 0 then
        sampleInterval st.data cfg bAlpha bBeta st.train_interval.1 st.train_interval.2 ω
      else
        sampleInterval st.data cfg 1 1 st.test_interval.1 st.test_interval.2 ω) with
    | .error e => (.error e, st)
    | .ok s => (.ok ⟨s, sample_type, st.sample_num⟩, { st with sample_num := st.sample_num + 1 })

/-- Model of `BTgymBaseDataTrial.sample` (`isTrain` = the `'train'` label):
identical counter/metadata discipline at the Trial level. -/
def trialSampleStep (cfg : SamplerCfg) (st : NodeState) (isTrain : Bool) (bAlpha bBeta : ℚ)
    (ω : ℕ → ℕ × ℕ) : Except SampleFail ChildSample × NodeState :=
  if ¬ st.is_ready then (.error .notReady, st)
  else
    match (if isTrain then
        sampleInterval st.data cfg bAlpha bBeta st.train_interval.1 st.train_interval.2 ω
      else
        sampleInterval st.data cfg 1 1 st.test_interval.1 st.test_interval.2 ω) with
    | .error e => (.error e, st)
    | .ok s => (.ok ⟨s, if isTrain then 0 else 1, st.sample_num⟩,
                { st with sample_num := st.sample_num + 1 })

/-! ## Arithmetic facts about the draw scalers -/

lemma scaled_ediv_le (w : ℤ) (p d : ℕ) (hw : 0 ≤ w) (hp : p ≤ d) (hd : 0 < d) :
    w * p / d ≤ w := by
  have h1 : w * (p : ℤ) ≤ w * (d : ℤ) :=
    mul_le_mul_of_nonneg_left (by exact_mod_cast hp) hw
  have h2 : w * (p : ℤ) / d ≤ w * (d : ℤ) / d :=
    Int.ediv_le_ediv (by exact_mod_cast hd) h1
  rwa [Int.mul_ediv_cancel w (by exact_mod_cast hd.ne')] at h2

lemma truncScale_bounds (w : ℤ) (u : ℕ × ℕ) (hw : 0 ≤ w) (hu : ValidDraw u) :
    0 ≤ truncScale w u ∧ truncScale w u ≤ w := by
  obtain ⟨hp, hd⟩ := hu
  have hn : 0 ≤ w * (u.1 : ℤ) := mul_nonneg hw (by positivity)
  have heq : truncScale w u = w * (u.1 : ℤ) / u.2 := by
    simp only [truncScale, truncDiv, if_neg (not_lt.mpr hn)]
  rw [heq]
  exact ⟨Int.ediv_nonneg hn (by positivity), scaled_ediv_le w u.1 u.2 hw hp hd⟩

lemma roundScale_bounds (w : ℤ) (u : ℕ × ℕ) (hw : 0 ≤ w) (hu : ValidDraw u) :
    0 ≤ roundScale w u ∧ roundScale w u ≤ w := by
  obtain ⟨hp, hd⟩ := hu
  have hd' : (0 : ℤ) < u.2 := by exact_mod_cast hd
  have hn : 0 ≤ w * (u.1 : ℤ) := mul_nonneg hw (by positivity)
  have hf0 : 0 ≤ w * (u.1 : ℤ) / u.2 := Int.ediv_nonneg hn hd'.le
  have hfw : w * (u.1 : ℤ) / u.2 ≤ w := scaled_ediv_le w u.1 u.2 hw hp hd
  have hr0 : 0 ≤ w * (u.1 : ℤ) % u.2 := Int.emod_nonneg _ hd'.ne'
  have hkey : w * (u.1 : ℤ) % u.2 ≠ 0 → w * (u.1 : ℤ) / u.2 + 1 ≤ w := by
    intro hrne
    have hpd : u.1 ≠ u.2 := by
      intro h
      apply hrne
      rw [h]
      exact Int.mul_emod_left w u.2
    have hwne : w ≠ 0 := by
      intro h
      apply hrne
      rw [h, zero_mul]
      exact Int.zero_emod _
    have hw1 : 1 ≤ w := by omega
    have hple : (u.1 : ℤ) ≤ (u.2 : ℤ) - 1 := by
      have : u.1 < u.2 := lt_of_le_of_ne hp hpd
      omega
    have h1 : w * (u.1 : ℤ) ≤ w * ((u.2 : ℤ) - 1) :=
      mul_le_mul_of_nonneg_left hple hw
    have h2 : w * (u.1 : ℤ) / u.2 ≤ w * ((u.2 : ℤ) - 1) / u.2 :=
      Int.ediv_le_ediv hd' h1
    have h3 : w * ((u.2 : ℤ) - 1) = -w + w * u.2 := by ring
    have h4 : (-w + w * (u.2 : ℤ)) / u.2 = -w / u.2 + w :=
      Int.add_mul_ediv_right (-w) w hd'.ne'
    have h5 : -w / (u.2 : ℤ) < 0 := Int.ediv_neg' (by omega) hd'
    rw [h3, h4] at h2
    omega
  unfold roundScale halfEvenRound
  simp only
  split
  · exact ⟨hf0, hfw⟩
  · rename_i hc1
    have hrne : w * (u.1 : ℤ) % u.2 ≠ 0 := by omega
    have := hkey hrne
    split
    · omega
    · split <;> omega

lemma halfEvenRound_zero (d : ℕ) : halfEvenRound 0 d = 0 := by
  unfold halfEvenRound
  simp

/-! ## Facts about slicing and row lookup -/

lemma pySlice_nat {α : Type} (l : List α) (a b : ℕ) (hab : a ≤ b) :
    pySlice l (a : ℤ) (b : ℤ) = (l.drop a).take (b - a) := by
  simp only [pySlice, pyIdx, if_neg (show ¬ ((a : ℤ) < 0) by omega),
    if_neg (show ¬ ((b : ℤ) < 0) by omega), Int.toNat_natCast]
  by_cases ha : a ≤ l.length
  · by_cases hb : b ≤ l.length
    · rw [Nat.min_eq_right ha, Nat.min_eq_right hb]
    · rw [Nat.min_eq_right ha, Nat.min_eq_left (by omega)]
      rw [List.take_of_length_le (by simp only [List.length_drop]; omega),
        List.take_of_length_le (by simp only [List.length_drop]; omega)]
  · rw [Nat.min_eq_left (by omega), Nat.min_eq_left (by omega), List.drop_length,
      List.drop_eq_nil_of_le (by omega), List.take_nil, List.take_nil]

lemma getTs_some_elim (l : List ℕ) (i : ℤ) (t : ℕ) (h0 : 0 ≤ i) (h : getTs l i = some t) :
    i < (l.length : ℤ) ∧ l[i.toNat]? = some t := by
  unfold getTs pySlice pyIdx at h
  rw [if_neg (by omega : ¬ i < 0), if_neg (by omega : ¬ i + 1 < 0)] at h
  have hi1 : (i + 1).toNat = i.toNat + 1 := by omega
  rw [hi1] at h
  by_cases hlt : i.toNat < l.length
  · rw [Nat.min_eq_right hlt.le, Nat.min_eq_right (by omega : i.toNat + 1 ≤ l.length)] at h
    simp only [Nat.add_sub_cancel_left, List.head?_take, List.head?_drop] at h
    rw [if_neg (by omega : ¬ (1 : ℕ) = 0)] at h
    exact ⟨by omega, h⟩
  · rw [Nat.min_eq_left (by omega : l.length ≤ i.toNat)] at h
    simp only [List.drop_length, List.take_nil] at h
    simp at h

lemma head?_of_take_drop (l : List ℕ) (f r : ℕ) (hr : 0 < r) :
    ((l.drop f).take r).head? = l[f]? := by
  rw [List.head?_take, if_neg (by omega : r ≠ 0), List.head?_drop]

/-! ## Facts about nearest-timestamp lookup -/

lemma tsDist_eq_zero (a b : ℕ) : tsDist a b = 0 ↔ a = b := by
  unfold tsDist
  omega

lemma nearestIdxAux_bd_zero (t : ℕ) : ∀ (xs : List ℕ) (i best : ℕ),
    nearestIdxAux t xs i best 0 = best := by
  intro xs
  induction xs with
  | nil => intro i best; rfl
  | cons x xs ih =>
    intro i best
    unfold nearestIdxAux
    rw [if_neg (by omega : ¬ tsDist x t < 0)]
    exact ih (i + 1) best

lemma nearestIdxAux_find (t : ℕ) : ∀ (xs : List ℕ) (i best bd : ℕ),
    0 < bd → t ∈ xs → nearestIdxAux t xs i best bd = i + xs.indexOf t := by
  intro xs
  induction xs with
  | nil => intro i best bd _ hmem; cases hmem
  | cons x xs ih =>
    intro i best bd hbd hmem
    by_cases hx : x = t
    · subst hx
      unfold nearestIdxAux
      rw [if_pos (by rw [(tsDist_eq_zero x x).mpr rfl]; omega)]
      rw [(tsDist_eq_zero x x).mpr rfl, nearestIdxAux_bd_zero, List.indexOf_cons_self]
      omega
    · have hdist : 0 < tsDist x t := by
        rcases Nat.eq_zero_or_pos (tsDist x t) with h | h
        · exact absurd ((tsDist_eq_zero x t).mp h) hx
        · exact h
      have hmem' : t ∈ xs := by
        cases hmem with
        | head => exact absurd rfl hx
        | tail _ h => exact h
      have hidx : (x :: xs).indexOf t = xs.indexOf t + 1 :=
        List.indexOf_cons_ne xs hx
      unfold nearestIdxAux
      split
      · rw [ih (i + 1) i (tsDist x t) hdist hmem', hidx]
        omega
      · rw [ih (i + 1) best bd hbd hmem', hidx]
        omega

lemma nearestIdx_indexOf (l : List ℕ) (t : ℕ) (h : t ∈ l) :
    nearestIdx l t = l.indexOf t := by
  cases l with
  | nil => cases h
  | cons x xs =>
    rw [nearestIdx]
    by_cases hx : x = t
    · subst hx
      rw [(tsDist_eq_zero x x).mpr rfl, nearestIdxAux_bd_zero, List.indexOf_cons_self]
    · have hdist : 0 < tsDist x t := by
        rcases Nat.eq_zero_or_pos (tsDist x t) with h' | h'
        · exact absurd ((tsDist_eq_zero x t).mp h') hx
        · exact h'
      have hmem' : t ∈ xs := by
        cases h with
        | head => exact absurd rfl hx
        | tail _ h' => exact h'
      rw [nearestIdxAux_find t xs 1 0 (tsDist x t) hdist hmem', List.indexOf_cons_ne xs hx]
      omega

lemma nearestIdx_self (l : List ℕ) (t : ℕ) (i : ℕ) (hnd : l.Nodup)
    (h : l[i]? = some t) : nearestIdx l t = i := by
  obtain ⟨hlt, hget⟩ := List.getElem?_eq_some_iff.mp h
  subst hget
  rw [nearestIdx_indexOf l _ (List.getElem_mem hlt)]
  exact List.indexOf_getElem hnd i hlt

/-! ## Invariants of the weekday-redraw loop -/

lemma weekdayLoopF_att (data sw : List ℕ) (lo hi : ℤ) (records : ℕ) (ω : ℕ → ℕ × ℕ) :
    ∀ (fuel k att : ℕ) (fr : ℤ) (ts : ℕ) (k1 att1 : ℕ) (fr1 : ℤ) (ts1 : ℕ),
    weekdayLoopF data sw lo hi records ω fuel k att fr ts = some (.ok (k1, att1, fr1, ts1)) →
    att ≤ att1 ∧ (att ≤ 101 → att1 ≤ 101) := by
  intro fuel
  induction fuel with
  | zero =>
    intro k att fr ts k1 att1 fr1 ts1 h
    simp [weekdayLoopF] at h
  | succ n ih =>
    intro k att fr ts k1 att1 fr1 ts1 h
    rw [weekdayLoopF] at h
    split at h
    · simp only [Option.some.injEq, Except.ok.injEq, Prod.mk.injEq] at h
      omega
    · rename_i hc
      push_neg at hc
      obtain ⟨hc1, hc2⟩ := hc
      split at h
      · simp at h
      · rename_i ts2 hts2
        have := ih (k + 1) (att + 1) _ ts2 k1 att1 fr1 ts1 h
        omega

lemma weekdayLoopF_none (data sw : List ℕ) (lo hi : ℤ) (records : ℕ) (ω : ℕ → ℕ × ℕ) :
    ∀ (fuel k att : ℕ) (fr : ℤ) (ts : ℕ), att ≤ 101 →
    weekdayLoopF data sw lo hi records ω fuel k att fr ts = none → fuel < 102 - att := by
  intro fuel
  induction fuel with
  | zero =>
    intro k att fr ts h1 _
    omega
  | succ n ih =>
    intro k att fr ts h1 h
    rw [weekdayLoopF] at h
    split at h
    · simp at h
    · rename_i hc
      push_neg at hc
      obtain ⟨hc1, hc2⟩ := hc
      split at h
      · simp at h
      · rename_i ts2 hts2
        have := ih (k + 1) (att + 1) _ ts2 (by omega) h
        omega

lemma weekdayLoopF_err (data sw : List ℕ) (lo hi : ℤ) (records : ℕ) (ω : ℕ → ℕ × ℕ) :
    ∀ (fuel k att : ℕ) (fr : ℤ) (ts : ℕ) (e : SampleFail),
    weekdayLoopF data sw lo hi records ω fuel k att fr ts = some (.error e) →
    e = .indexFault := by
  intro fuel
  induction fuel with
  | zero =>
    intro k att fr ts e h
    simp [weekdayLoopF] at h
  | succ n ih =>
    intro k att fr ts e h
    rw [weekdayLoopF] at h
    split at h
    · simp at h
    · split at h
      · simp only [Option.some.injEq, Except.error.injEq] at h
        exact h.symm
      · rename_i ts2 hts2
        exact ih (k + 1) (att + 1) _ ts2 e h

lemma weekdayLoopF_inv (data sw : List ℕ) (lo hi : ℤ) (records : ℕ) (ω : ℕ → ℕ × ℕ)
    (hdr : ∀ n, ValidDraw (ω n)) (hw : (records : ℤ) ≤ hi - lo) :
    ∀ (fuel k att : ℕ) (fr : ℤ) (ts : ℕ) (k1 att1 : ℕ) (fr1 : ℤ) (ts1 : ℕ),
    lo ≤ fr → fr ≤ hi - records → getTs data fr = some ts →
    weekdayLoopF data sw lo hi records ω fuel k att fr ts = some (.ok (k1, att1, fr1, ts1)) →
    lo ≤ fr1 ∧ fr1 ≤ hi - records ∧ getTs data fr1 = some ts1 ∧
      (att1 ≤ 100 → weekday ts1 ∈ sw) := by
  intro fuel
  induction fuel with
  | zero =>
    intro k att fr ts k1 att1 fr1 ts1 _ _ _ h
    simp [weekdayLoopF] at h
  | succ n ih =>
    intro k att fr ts k1 att1 fr1 ts1 hf1 hf2 hts h
    rw [weekdayLoopF] at h
    split at h
    · rename_i hc
      simp only [Option.some.injEq, Except.ok.injEq, Prod.mk.injEq] at h
      obtain ⟨hk, ha, hf, ht⟩ := h
      subst hk; subst ha; subst hf; subst ht
      refine ⟨hf1, hf2, hts, fun hle => ?_⟩
      rcases hc with hc | hc
      · exact hc
      · omega
    · split at h
      · simp at h
      · rename_i ts2 hts2
        have hb := roundScale_bounds (hi - lo - records) (ω k) (by omega) (hdr k)
        refine ih (k + 1) (att + 1) (redrawStart lo hi records (ω k)) ts2 k1 att1 fr1 ts1
          ?_ ?_ hts2 h
        · unfold redrawStart
          omega
        · unfold redrawStart
          omega

/-! ## Invariants of the outer retry loop -/

lemma sampleLoopF_none (data : List ℕ) (cfg : SamplerCfg) (lo hi : ℤ) (ω : ℕ → ℕ × ℕ) :
    ∀ (fuel k att : ℕ), att ≤ 101 →
    sampleLoopF data cfg lo hi ω fuel k att = none → fuel < 102 - att := by
  intro fuel
  induction fuel with
  | zero =>
    intro k att h1 _
    omega
  | succ n ih =>
    intro k att h1 h
    rw [sampleLoopF] at h
    split at h
    · simp at h
    · rename_i hle
      split at h
      · simp at h
      · rename_i ts0 hts0
        split at h
        · rename_i hwnone
          have := weekdayLoopF_none data cfg.start_weekdays lo hi cfg.sample_num_records ω
            102 (k + 1) att _ ts0 h1 hwnone
          omega
        · simp at h
        · rename_i k1 att1 x ts1 hok
          have hatt := weekdayLoopF_att data cfg.start_weekdays lo hi cfg.sample_num_records ω
            102 (k + 1) att _ ts0 k1 att1 x ts1 hok
          split at h
          · simp at h
          · rename_i hle1
            split at h
            · split at h
              · simp at h
              · have := ih k1 (att1 + 1) (by omega) h
                omega
            · simp at h

lemma sampleLoopF_exh (data : List ℕ) (cfg : SamplerCfg) (lo hi : ℤ) (ω : ℕ → ℕ × ℕ) :
    ∀ (fuel k att m : ℕ), att ≤ 101 →
    sampleLoopF data cfg lo hi ω fuel k att = some (.error (.exhausted m)) → m = 101 := by
  intro fuel
  induction fuel with
  | zero =>
    intro k att m _ h
    simp [sampleLoopF] at h
  | succ n ih =>
    intro k att m h1 h
    rw [sampleLoopF] at h
    split at h
    · rename_i hgt
      simp only [Option.some.injEq, Except.error.injEq, SampleFail.exhausted.injEq] at h
      omega
    · rename_i hle
      split at h
      · simp at h
      · rename_i ts0 hts0
        split at h
        · simp at h
        · rename_i e he
          have := weekdayLoopF_err data cfg.start_weekdays lo hi cfg.sample_num_records ω
            102 (k + 1) att _ ts0 e he
          subst this
          simp at h
        · rename_i k1 att1 x ts1 hok
          have hatt := weekdayLoopF_att data cfg.start_weekdays lo hi cfg.sample_num_records ω
            102 (k + 1) att _ ts0 k1 att1 x ts1 hok
          split at h
          · rename_i hgt1
            simp only [Option.some.injEq, Except.error.injEq, SampleFail.exhausted.injEq] at h
            omega
          · rename_i hle1
            split at h
            · split at h
              · simp at h
              · exact ih k1 (att1 + 1) m (by omega) h
            · simp at h

lemma sampleLoopF_accept (data : List ℕ) (cfg : SamplerCfg) (lo hi : ℤ) (ω : ℕ → ℕ × ℕ)
    (hnd : data.Nodup) (hdr : ∀ n, ValidDraw (ω n)) (hlo : 0 ≤ lo)
    (hw : (cfg.sample_num_records : ℤ) ≤ hi - lo) (hs : cfg.start_00 = false) :
    ∀ (fuel k att : ℕ) (s : EpisodeSample),
    sampleLoopF data cfg lo hi ω fuel k att = some (.ok s) →
    lo ≤ (s.first_row : ℤ) ∧ (s.first_row : ℤ) + cfg.sample_num_records ≤ hi ∧
    s.rows = (data.drop s.first_row).take cfg.sample_num_records ∧
    (hi ≤ (data.length : ℤ) → s.rows.length = cfg.sample_num_records) ∧
    s.rows.head? = some s.adj_timedate ∧
    weekday s.adj_timedate ∈ cfg.start_weekdays ∧
    (∃ t0 t1, s.rows.head? = some t0 ∧ s.rows.getLast? = some t1 ∧
      (t1 : ℤ) - (t0 : ℤ) - cfg.max_sample_len_delta < cfg.max_time_gap) := by
  intro fuel
  induction fuel with
  | zero =>
    intro k att s h
    simp [sampleLoopF] at h
  | succ n ih =>
    intro k att s h
    rw [sampleLoopF] at h
    split at h
    · simp at h
    · rename_i hle
      split at h
      · simp at h
      · rename_i ts0 hts0
        split at h
        · simp at h
        · simp at h
        · rename_i k1 att1 x ts1 hok
          have hb := truncScale_bounds (hi - lo - cfg.sample_num_records) (ω k)
            (by omega) (hdr k)
          have hfr0lo : lo ≤ drawStart lo hi cfg.sample_num_records (ω k) := by
            unfold drawStart
            omega
          have hfr0hi : drawStart lo hi cfg.sample_num_records (ω k) ≤
              hi - cfg.sample_num_records := by
            unfold drawStart
            omega
          obtain ⟨hx1, hx2, hx3, hx4⟩ := weekdayLoopF_inv data cfg.start_weekdays lo hi
            cfg.sample_num_records ω hdr hw 102 (k + 1) att _ ts0 k1 att1 x ts1
            hfr0lo hfr0hi hts0 hok
          split at h
          · simp at h
          · rename_i hle1
            have hwk : weekday ts1 ∈ cfg.start_weekdays := hx4 (by omega)
            have hx0 : (0 : ℤ) ≤ x := le_trans hlo hx1
            obtain ⟨hxlt, hxget⟩ := getTs_some_elim data x ts1 hx0 hx3
            have hadj : adjStart cfg ts1 = ts1 := by simp [adjStart, hs]
            have hnear : nearestIdx data (adjStart cfg ts1) = x.toNat := by
              rw [hadj]
              exact nearestIdx_self data ts1 x.toNat hnd hxget
            have hbound : (x.toNat : ℤ) = x := Int.toNat_of_nonneg hx0
            have hslice : sliceAt data x.toNat cfg.sample_num_records =
                (data.drop x.toNat).take cfg.sample_num_records := by
              unfold sliceAt
              rw [show ((x.toNat : ℤ) + (cfg.sample_num_records : ℕ)) =
                (((x.toNat + cfg.sample_num_records : ℕ) : ℤ)) by push_cast; ring]
              rw [pySlice_nat data x.toNat (x.toNat + cfg.sample_num_records) (by omega)]
              rw [Nat.add_sub_cancel_left]
            split at h
            · rename_i t0 t1 hh0 hh1
              split at h
              · rename_i hgap
                simp only [Option.some.injEq, Except.ok.injEq] at h
                subst h
                have hrec : 0 < cfg.sample_num_records := by
                  rcases Nat.eq_zero_or_pos cfg.sample_num_records with hz | hp
                  · rw [hnear, hslice, hz] at hh0
                    simp at hh0
                  · exact hp
                dsimp only
                refine ⟨?_, ?_, ?_, ?_, ?_, ?_, t0, t1, hh0, hh1, hgap⟩
                · simp only [hnear]
                  omega
                · simp only [hnear]
                  omega
                · simp only [hnear]
                  exact hslice
                · intro hhi
                  simp only [hnear, hslice, List.length_take, List.length_drop]
                  omega
                · rw [hnear, hadj, hslice, head?_of_take_drop data x.toNat _ hrec]
                  exact hxget
                · rw [hadj]
                  exact hwk
              · exact ih k1 (att1 + 1) s h
            · simp at h

/-! ## Lifting the loop invariants to `_sample_interval` -/

lemma sampleIntervalF_not_none (data : List ℕ) (cfg : SamplerCfg) (bAlpha bBeta : ℚ)
    (lo hi : ℤ) (ω : ℕ → ℕ × ℕ) :
    sampleIntervalF 102 data cfg bAlpha bBeta lo hi ω ≠ none := by
  intro h
  unfold sampleIntervalF at h
  split at h
  · simp at h
  · split at h
    · simp at h
    · split at h
      · simp at h
      · have := sampleLoopF_none data cfg lo hi ω 102 0 0 (by omega) h
        omega

lemma sampleIntervalF_exh (data : List ℕ) (cfg : SamplerCfg) (bAlpha bBeta : ℚ)
    (lo hi : ℤ) (ω : ℕ → ℕ × ℕ) (m : ℕ) :
    sampleIntervalF 102 data cfg bAlpha bBeta lo hi ω =
      some (.error (.exhausted m)) → m = 101 := by
  intro h
  unfold sampleIntervalF at h
  split at h
  · simp at h
  · split at h
    · simp at h
    · split at h
      · simp at h
      · exact sampleLoopF_exh data cfg lo hi ω 102 0 0 m (by omega) h

lemma sampleInterval_ok (data : List ℕ) (cfg : SamplerCfg) (bAlpha bBeta : ℚ)
    (lo hi : ℤ) (ω : ℕ → ℕ × ℕ) (s : EpisodeSample)
    (h : sampleInterval data cfg bAlpha bBeta lo hi ω = .ok s) :
    sampleIntervalF 102 data cfg bAlpha bBeta lo hi ω = some (.ok s) := by
  unfold sampleInterval at h
  cases hv : sampleIntervalF 102 data cfg bAlpha bBeta lo hi ω with
  | none =>
    rw [hv] at h
    simp at h
  | some r =>
    rw [hv] at h
    simp only [Option.getD_some] at h
    rw [h]

lemma sampleIntervalF_ok_elim (fuel : ℕ) (data : List ℕ) (cfg : SamplerCfg)
    (bAlpha bBeta : ℚ) (lo hi : ℤ) (ω : ℕ → ℕ × ℕ) (s : EpisodeSample)
    (h : sampleIntervalF fuel data cfg bAlpha bBeta lo hi ω = some (.ok s)) :
    data.length ≠ 0 ∧ (0 < bAlpha ∧ 0 < bBeta) ∧ (lo < hi ∧ hi ≤ (data.length : ℤ)) ∧
      sampleLoopF data cfg lo hi ω fuel 0 0 = some (.ok s) := by
  unfold sampleIntervalF at h
  split at h
  · simp at h
  · rename_i h1
    split at h
    · simp at h
    · rename_i h2
      split at h
      · simp at h
      · rename_i h3
        push_neg at h2
        exact ⟨h1, not_not.mp (by simpa using h2), not_not.mp (by simpa using h3), h⟩

/-! ## Claim theorems -/

/-- C1: the claim states that an interval of width `hi - lo ≤ sample_num_records`
fails immediately with `InvalidInterval` before any random draw.  The code's
precondition assert checks only `interval[0] < interval[-1] <= len(data)` and
never compares the width against `sample_num_records` (its own error message
mentions the sample size, documenting the intended check), so a narrow interval
passes the precondition and random draws are made.  Here `[0, 100)` with
`sample_num_records = 150` on a 100-row store returns an accepted sample, and
two draw streams that differ only in the drawn Beta value give different
results, witnessing that randomness is consumed. -/
theorem claim1_narrow_interval_still_draws :
    sampleInterval (List.range 100) ⟨150, 0, 100, [0], false⟩ 1 1 0 100 (fun _ => (1, 1)) =
      .ok ⟨50, (List.range 100).drop 50, 50⟩ ∧
    sampleInterval (List.range 100) ⟨150, 0, 100, [0], false⟩ 1 1 0 100 (fun _ => (0, 1)) =
      .ok ⟨0, List.range 100, 0⟩ := by
  constructor <;> decide

/-- C2 counterexample: with `start_00 = true` the `get_loc(..., 'nearest')`
realignment can move the accepted sample's first row to a weekday outside
`start_weekdays`.  Store: Monday 23:59, Tuesday 00:30, Tuesday 00:31 (minutes
1439, 1470, 1471); `start_weekdays = [1]` (Tuesday only).  The draw lands on
Tuesday 00:30, midnight realignment snaps to the Monday 23:59 row, and the
sample is accepted with a Monday first row. -/
theorem claim2_counterexample :
    sampleInterval [1439, 1470, 1471] ⟨2, 2, 30, [1], true⟩ 1 1 0 3 (fun _ => (1, 1)) =
      .ok ⟨0, [1439, 1470], 1440⟩ ∧
    weekday 1439 ∉ ([1] : List ℕ) ∧ ValidDraw (1, 1) := by
  refine ⟨?_, ?_, ?_⟩ <;> decide

/-- C2 (amended): for accepted samples produced with `start_00 = false`, over a
duplicate-free store, an in-range interval of width at least
`sample_num_records`, and draws in `[0, 1]`: the first-row weekday lies in
`start_weekdays`, the row count equals `sample_num_records` exactly, and the
actual span minus `max_sample_len_delta` is strictly below `max_time_gap`.
With `start_00 = true` the weekday and row-count parts can fail (see the
counterexample). -/
theorem claim2_accepted_sample_properties (data : List ℕ) (cfg : SamplerCfg)
    (bAlpha bBeta : ℚ) (lo hi : ℤ) (ω : ℕ → ℕ × ℕ) (s : EpisodeSample)
    (hnd : data.Nodup) (hdr : ∀ n, ValidDraw (ω n)) (hlo : 0 ≤ lo)
    (hw : (cfg.sample_num_records : ℤ) ≤ hi - lo) (hs : cfg.start_00 = false)
    (h : sampleInterval data cfg bAlpha bBeta lo hi ω = .ok s) :
    (∃ t0, s.rows.head? = some t0 ∧ weekday t0 ∈ cfg.start_weekdays) ∧
    s.rows.length = cfg.sample_num_records ∧
    (∃ t0 t1, s.rows.head? = some t0 ∧ s.rows.getLast? = some t1 ∧
      (t1 : ℤ) - (t0 : ℤ) - cfg.max_sample_len_delta < cfg.max_time_gap) := by
  have hF := sampleInterval_ok data cfg bAlpha bBeta lo hi ω s h
  obtain ⟨hne, hab, ⟨hlt, hle⟩, hloop⟩ :=
    sampleIntervalF_ok_elim 102 data cfg bAlpha bBeta lo hi ω s hF
  obtain ⟨c1, c2, c3, c4, c5, c6, c7⟩ :=
    sampleLoopF_accept data cfg lo hi ω hnd hdr hlo hw hs 102 0 0 s hloop
  exact ⟨⟨s.adj_timedate, c5, c6⟩, c4 hle, c7⟩

/-- C2 witness: the amended theorem applied at a concrete accepted sample. -/
theorem claim2_witness :
    (∃ t0, (EpisodeSample.mk 0 [0, 1] 0).rows.head? = some t0 ∧
      weekday t0 ∈ (SamplerCfg.mk 2 1 10 [0] false).start_weekdays) ∧
    (EpisodeSample.mk 0 [0, 1] 0).rows.length =
      (SamplerCfg.mk 2 1 10 [0] false).sample_num_records ∧
    (∃ t0 t1, (EpisodeSample.mk 0 [0, 1] 0).rows.head? = some t0 ∧
      (EpisodeSample.mk 0 [0, 1] 0).rows.getLast? = some t1 ∧
      (t1 : ℤ) - (t0 : ℤ) - (SamplerCfg.mk 2 1 10 [0] false).max_sample_len_delta <
        (SamplerCfg.mk 2 1 10 [0] false).max_time_gap) :=
  claim2_accepted_sample_properties [0, 1, 2] ⟨2, 1, 10, [0], false⟩ 1 1 0 3
    (fun _ => (0, 1)) ⟨0, [0, 1], 0⟩ (by decide) (fun _ => (by decide : ValidDraw (0, 1)))
    (by decide) (by decide) (by decide) (by decide)

/-- C3: every `_sample_interval` call terminates within the fixed attempt
budget: recursion depth 102 always suffices (the shared `attempts` counter
bounds the weekday redraw loop and the gap retry loop alike), and when the
budget is exhausted the resulting failure is `exhausted` carrying the final
attempt count 101 (the counter value after the ceiling of 100 is crossed). -/
theorem claim3_sampler_terminates (data : List ℕ) (cfg : SamplerCfg)
    (bAlpha bBeta : ℚ) (lo hi : ℤ) (ω : ℕ → ℕ × ℕ) :
    ∃ r, sampleIntervalF 102 data cfg bAlpha bBeta lo hi ω = some r ∧
      ∀ m, r = .error (.exhausted m) → m = 101 := by
  cases hv : sampleIntervalF 102 data cfg bAlpha bBeta lo hi ω with
  | none => exact absurd hv (sampleIntervalF_not_none data cfg bAlpha bBeta lo hi ω)
  | some r =>
    refine ⟨r, rfl, ?_⟩
    intro m hm
    subst hm
    exact sampleIntervalF_exh data cfg bAlpha bBeta lo hi ω m hv

/-- C3 witness: the termination theorem applied at a concrete input on which
the budget is actually exhausted (weekday `1` never occurs in the store). -/
theorem claim3_witness :
    ∃ r, sampleIntervalF 102 (List.range 10) ⟨2, 1, 10, [1], false⟩ 1 1 0 10
      (fun _ => (0, 1)) = some r ∧ ∀ m, r = .error (.exhausted m) → m = 101 :=
  claim3_sampler_terminates (List.range 10) ⟨2, 1, 10, [1], false⟩ 1 1 0 10 (fun _ => (0, 1))

/-- C10: with `start_00 = false`, a duplicate-free store and an interval of
width strictly greater than `sample_num_records`, every accepted sample starts
inside `[lo, hi - sample_num_records]`, its slice is exactly
`data[first_row : first_row + sample_num_records]`, and the recorded
`metadata['first_row']` is that same start index. -/
theorem claim10_start_containment (data : List ℕ) (cfg : SamplerCfg)
    (bAlpha bBeta : ℚ) (lo hi : ℤ) (ω : ℕ → ℕ × ℕ) (s : EpisodeSample)
    (hnd : data.Nodup) (hdr : ∀ n, ValidDraw (ω n)) (hlo : 0 ≤ lo)
    (hw : (cfg.sample_num_records : ℤ) < hi - lo) (hs : cfg.start_00 = false)
    (h : sampleInterval data cfg bAlpha bBeta lo hi ω = .ok s) :
    lo ≤ (s.first_row : ℤ) ∧ (s.first_row : ℤ) + cfg.sample_num_records ≤ hi ∧
    s.rows = (data.drop s.first_row).take cfg.sample_num_records := by
  have hF := sampleInterval_ok data cfg bAlpha bBeta lo hi ω s h
  obtain ⟨hne, hab, ⟨hlt, hle⟩, hloop⟩ :=
    sampleIntervalF_ok_elim 102 data cfg bAlpha bBeta lo hi ω s hF
  obtain ⟨c1, c2, c3, _, _, _, _⟩ :=
    sampleLoopF_accept data cfg lo hi ω hnd hdr hlo (le_of_lt hw) hs 102 0 0 s hloop
  exact ⟨c1, c2, c3⟩

/-! ## Facts about duplicate removal -/

lemma dedupAux_sublist : ∀ (l seen : List ℕ), (dedupAux seen l).Sublist l := by
  intro l
  induction l with
  | nil => intro seen; exact List.Sublist.refl []
  | cons x xs ih =>
    intro seen
    unfold dedupAux
    split
    · exact (ih seen).cons x
    · exact (ih (x :: seen)).cons₂ x

lemma dedupAux_nodup : ∀ (l seen : List ℕ),
    (dedupAux seen l).Nodup ∧ ∀ y ∈ dedupAux seen l, y ∉ seen := by
  intro l
  induction l with
  | nil =>
    intro seen
    exact ⟨List.nodup_nil, by simp [dedupAux]⟩
  | cons x xs ih =>
    intro seen
    unfold dedupAux
    split
    · exact ih seen
    · rename_i hx
      obtain ⟨ih1, ih2⟩ := ih (x :: seen)
      constructor
      · rw [List.nodup_cons]
        refine ⟨fun hmem => ?_, ih1⟩
        exact ih2 x hmem (List.mem_cons_self x seen)
      · intro y hy
        rcases List.mem_cons.mp hy with hy | hy
        · subst hy
          exact hx
        · intro hys
          exact ih2 y hy (List.mem_cons_of_mem x hys)

lemma dedupAux_mem : ∀ (l seen : List ℕ) (x : ℕ),
    x ∈ l → x ∈ seen ∨ x ∈ dedupAux seen l := by
  intro l
  induction l with
  | nil =>
    intro seen x hx
    cases hx
  | cons y ys ih =>
    intro seen x hx
    unfold dedupAux
    split
    · rename_i hy
      rcases List.mem_cons.mp hx with hx | hx
      · subst hx
        exact Or.inl hy
      · exact ih seen x hx
    · rename_i hy
      rcases List.mem_cons.mp hx with hx | hx
      · subst hx
        exact Or.inr (List.mem_cons_self x _)
      · rcases ih (y :: seen) x hx with hs | hd
        · rcases List.mem_cons.mp hs with hs | hs
          · subst hs
            exact Or.inr (List.mem_cons_self x _)
          · exact Or.inl hs
        · exact Or.inr (List.mem_cons_of_mem y hd)

/-! ## Claim theorems: loader and resets -/

/-- C4 counterexample: the Trial-level `reset` performs no `InsufficientData`
check at all.  With `train_num_records = test_num_records = 2880` and a 2-row
store, while the episode `sample_duration` of 2880 minutes at `timeframe` 1
implies a 2880-row minimum sample, `reset` succeeds and marks the node ready;
its train interval holds a single row. -/
theorem claim4_counterexample :
    trialReset 2880 2880 [0, 1] = .ok ⟨[0, 1], (0, 1), (2, 2), 0, true⟩ ∧
    (1 : ℤ) - 0 < (sampleRecordsOf ⟨1, 2880, 0⟩ : ℤ) := by
  constructor <;> decide

/-- C4 (amended): only the Domain/base-level `reset` fails with
`InsufficientData` when the train interval, or a non-empty test interval, is
narrower than the minimum sample length; the Trial-level `reset` performs no
such check and succeeds on any store (whenever its record-count parameters are
not both zero), with the failure surfacing only later at sample time. -/
theorem claim4_reset_insufficient_data (p : DataParams) (data : List ℕ)
    (tr te : ℕ) (data2 : List ℕ) (hz : tr + te ≠ 0) :
    (((data.length : ℤ) - testRecordsOf p < (sampleRecordsOf p : ℤ) ∨
      (0 < testRecordsOf p ∧ testRecordsOf p < (sampleRecordsOf p : ℤ))) →
      baseReset p data = .error .insufficientData) ∧
    ∃ st, trialReset tr te data2 = .ok st ∧ st.is_ready = true := by
  constructor
  · intro hcond
    unfold baseReset
    by_cases h1 : (data.length : ℤ) - testRecordsOf p < (sampleRecordsOf p : ℤ)
    · rw [if_pos h1]
    · rcases hcond with hc | hc
      · exact absurd hc h1
      · rw [if_neg h1, if_pos hc]
  · unfold trialReset
    rw [if_neg hz]
    exact ⟨_, rfl, rfl⟩

/-- C4 witness: the amended theorem applied at concrete inputs (a base reset
with a 5-row store and 10-row minimum sample fails; a Trial reset succeeds). -/
theorem claim4_witness :
    baseReset ⟨1, 10, 0⟩ [0, 1, 2, 3, 4] = .error .insufficientData :=
  (claim4_reset_insufficient_data ⟨1, 10, 0⟩ [0, 1, 2, 3, 4] 1 1 [0] (by decide)).1
    (by decide)

/-- C5 counterexample: duplicate removal happens per input file before
concatenation, so a timestamp shared by two files survives: loading
`[[10, 20], [20, 30]]` yields `[10, 20, 20, 30]`, which is not
duplicate-free. -/
theorem claim5_counterexample :
    loadFiles [[10, 20], [20, 30]] = [10, 20, 20, 30] ∧
    ¬ (loadFiles [[10, 20], [20, 30]]).Nodup := by
  constructor <;> decide

/-- C5 (amended): per file, loading removes all duplicate timestamps except
their first occurrences (the result is duplicate-free, is a subsequence of
the file, and retains every timestamp) and the reported removed count is the
difference of row counts; for a single-file input the resulting store
therefore has strictly unique timestamps.  Duplicates across different files
of one input list are not removed (see the counterexample). -/
theorem claim5_per_file_dedup (f : List ℕ) :
    (dedupKeepFirst f).Nodup ∧ (dedupKeepFirst f).Sublist f ∧
    (∀ x, x ∈ f → x ∈ dedupKeepFirst f) ∧
    f.length = (dedupKeepFirst f).length + removedDuplicates f ∧
    loadFiles [f] = dedupKeepFirst f ∧ (loadFiles [f]).Nodup := by
  have hnd := (dedupAux_nodup f []).1
  have hsub := dedupAux_sublist f []
  have hmem : ∀ x, x ∈ f → x ∈ dedupKeepFirst f := by
    intro x hx
    rcases dedupAux_mem f [] x hx with hs | hd
    · cases hs
    · exact hd
  have hload : loadFiles [f] = dedupKeepFirst f := by
    simp [loadFiles]
  refine ⟨hnd, hsub, hmem, ?_, hload, hload ▸ hnd⟩
  have hle : (dedupKeepFirst f).length ≤ f.length := hsub.length_le
  unfold removedDuplicates
  omega

/-- C5 witness: the amended theorem applied at a file with one duplicate. -/
theorem claim5_witness : (dedupKeepFirst [5, 5, 6]).Nodup :=
  (claim5_per_file_dedup [5, 5, 6]).1

/-- C6: after a successful Domain/base-level `reset` over `N` rows,
`train_interval = [0, breakpoint)` and `test_interval = [breakpoint, N)` share
the breakpoint `N - test_num_records`, the test interval holds exactly
`test_num_records` rows (the count implied by the configured test duration,
zero duration giving an empty test interval), and the train interval holds at
least `sample_num_records` rows. -/
theorem claim6_domain_reset_intervals (p : DataParams) (data : List ℕ) (st : NodeState)
    (h : baseReset p data = .ok st) :
    st.train_interval = (0, (data.length : ℤ) - testRecordsOf p) ∧
    st.test_interval = ((data.length : ℤ) - testRecordsOf p, (data.length : ℤ)) ∧
    st.train_interval.2 = st.test_interval.1 ∧
    st.test_interval.2 - st.test_interval.1 = testRecordsOf p ∧
    (p.test_period_min = 0 → st.test_interval.2 = st.test_interval.1) ∧
    (sampleRecordsOf p : ℤ) ≤ st.train_interval.2 - st.train_interval.1 := by
  unfold baseReset at h
  split at h
  · simp at h
  · rename_i h1
    split at h
    · simp at h
    · simp only [Except.ok.injEq] at h
      subst h
      have hz : p.test_period_min = 0 → testRecordsOf p = 0 := by
        intro ht
        unfold testRecordsOf
        rw [ht]
        simpa using halfEvenRound_zero p.timeframe
      refine ⟨rfl, rfl, rfl, by ring, fun ht => ?_, by push_neg at h1; simpa using h1⟩
      have := hz ht
      simp only
      omega

/-- C6 witness: the Domain reset theorem applied at a concrete store of 30
rows with a zero test period. -/
theorem claim6_witness :
    (NodeState.mk (List.range 30) (0, 30) (30, 30) 0 true).train_interval =
      (0, ((List.range 30).length : ℤ) - testRecordsOf ⟨1, 10, 0⟩) :=
  (claim6_domain_reset_intervals ⟨1, 10, 0⟩ (List.range 30)
    ⟨List.range 30, (0, 30), (30, 30), 0, true⟩ (by decide)).1

/-- C7: after a successful Trial-level `reset` over `N` rows, the boundary is
`round(train_num_records * N / (train_num_records + test_num_records))`
(Python banker's rounding), `train_interval = [0, boundary)`,
`test_interval = [boundary + 1, N)`, exactly one row separates the two
intervals, and they are disjoint. -/
theorem claim7_trial_reset_split (tr te : ℕ) (data : List ℕ) (st : NodeState)
    (hz : 0 < tr + te) (h : trialReset tr te data = .ok st) :
    st.train_interval = (0, trialBreakPoint tr te data) ∧
    st.test_interval = (trialBreakPoint tr te data + 1, (data.length : ℤ)) ∧
    trialBreakPoint tr te data =
      halfEvenRound ((tr : ℤ) * (data.length : ℤ)) (tr + te) ∧
    st.test_interval.1 - st.train_interval.2 = 1 ∧
    (∀ i : ℤ, st.train_interval.1 ≤ i ∧ i < st.train_interval.2 →
      ¬ (st.test_interval.1 ≤ i ∧ i < st.test_interval.2)) := by
  unfold trialReset at h
  rw [if_neg (by omega)] at h
  simp only [Except.ok.injEq] at h
  subst h
  refine ⟨rfl, rfl, rfl, by ring, ?_⟩
  intro i hi hco
  simp only at hi hco
  omega

/-- C7 witness: the Trial reset theorem applied at 100 rows with record
counts 30/2 (boundary `round(3000 / 32) = 94`). -/
theorem claim7_witness :
    (NodeState.mk (List.range 100) (0, 94) (95, 100) 0 true).test_interval.1 -
      (NodeState.mk (List.range 100) (0, 94) (95, 100) 0 true).train_interval.2 = 1 :=
  (claim7_trial_reset_split 30 2 (List.range 100)
    ⟨List.range 100, (0, 94), (95, 100), 0, true⟩ (by decide) (by decide)).2.2.2.1

/-- C8: on a ready node, a successful `sample()` increments `sample_num` by
exactly one and stamps the child's `metadata['sample_num']` with the parent's
pre-call counter; any failing `sample()` call (not ready, bad type, or any
sampler error including exhaustion) leaves the node state unchanged.  Both
the base/Domain-level and the Trial-level `sample` obey this. -/
theorem claim8_sample_counter (cfg : SamplerCfg) (st : NodeState) (sample_type : ℕ)
    (isTrain : Bool) (bAlpha bBeta : ℚ) (ω : ℕ → ℕ × ℕ) :
    (∀ c st2, sampleStep cfg st sample_type bAlpha bBeta ω = (.ok c, st2) →
      st2.sample_num = st.sample_num + 1 ∧ c.meta_sample_num = st.sample_num) ∧
    (∀ e st2, sampleStep cfg st sample_type bAlpha bBeta ω = (.error e, st2) → st2 = st) ∧
    (∀ c st2, trialSampleStep cfg st isTrain bAlpha bBeta ω = (.ok c, st2) →
      st2.sample_num = st.sample_num + 1 ∧ c.meta_sample_num = st.sample_num) ∧
    (∀ e st2, trialSampleStep cfg st isTrain bAlpha bBeta ω = (.error e, st2) → st2 = st) := by
  refine ⟨?_, ?_, ?_, ?_⟩
  · intro c st2 h
    unfold sampleStep at h
    split at h
    · simp at h
    · split at h
      · simp at h
      · split at h
        · simp at h
        · simp only [Prod.mk.injEq, Except.ok.injEq] at h
          obtain ⟨hc, hst⟩ := h
          subst hc
          subst hst
          exact ⟨rfl, rfl⟩
  · intro e st2 h
    unfold sampleStep at h
    split at h
    · simp only [Prod.mk.injEq] at h
      exact h.2.symm
    · split at h
      · simp only [Prod.mk.injEq] at h
        exact h.2.symm
      · split at h
        · simp only [Prod.mk.injEq] at h
          exact h.2.symm
        · simp at h
  · intro c st2 h
    unfold trialSampleStep at h
    split at h
    · simp at h
    · split at h
      · simp at h
      · simp only [Prod.mk.injEq, Except.ok.injEq] at h
        obtain ⟨hc, hst⟩ := h
        subst hc
        subst hst
        exact ⟨rfl, rfl⟩
  · intro e st2 h
    unfold trialSampleStep at h
    split at h
    · simp only [Prod.mk.injEq] at h
      exact h.2.symm
    · split at h
      · simp only [Prod.mk.injEq] at h
        exact h.2.symm
      · simp at h

/-- C8 witness: the counter theorem applied at a concrete successful sample
(counter 5 becomes 6, the child is stamped 5). -/
theorem claim8_witness :
    (NodeState.mk [0, 1, 2] (0, 3) (0, 3) 6 true).sample_num =
      (NodeState.mk [0, 1, 2] (0, 3) (0, 3) 5 true).sample_num + 1 ∧
    (ChildSample.mk ⟨0, [0, 1], 0⟩ 0 5).meta_sample_num =
      (NodeState.mk [0, 1, 2] (0, 3) (0, 3) 5 true).sample_num :=
  (claim8_sample_counter ⟨2, 1, 10, [0], false⟩ ⟨[0, 1, 2], (0, 3), (0, 3), 5, true⟩
    0 true 1 1 (fun _ => (0, 1))).1 ⟨⟨0, [0, 1], 0⟩, 0, 5⟩
    ⟨[0, 1, 2], (0, 3), (0, 3), 6, true⟩ (by decide)

/-- Forward computation of `resetStep` from a successful `baseReset`. -/
lemma resetStep_of_baseReset (nd : BNode) (files : List (List ℕ)) (st : NodeState)
    (hb : baseReset nd.params (readCsvModel nd files) = .ok st) :
    resetStep nd files = .ok { nd with
      data := some (readCsvModel nd files)
      train_interval := st.train_interval
      test_interval := st.test_interval
      sample_num := 0
      is_ready := true } := by
  unfold resetStep
  rw [hb]

/-- C9: `reset` is idempotent on the node's interval state: if a first
`reset` over given input rows succeeds, a second `reset` with the same input
succeeds as well, yields identical `train_interval` and `test_interval`, and
leaves `sample_num` equal to 0 (after either call).  The second call reuses
the already-loaded data (`read_csv` skips reloading). -/
theorem claim9_reset_idempotent (nd : BNode) (files : List (List ℕ)) (nd1 : BNode)
    (h : resetStep nd files = .ok nd1) :
    ∃ nd2, resetStep nd1 files = .ok nd2 ∧
      nd2.train_interval = nd1.train_interval ∧
      nd2.test_interval = nd1.test_interval ∧
      nd2.sample_num = 0 ∧ nd1.sample_num = 0 := by
  unfold resetStep at h
  split at h
  · simp at h
  · rename_i st heq
    simp only [Except.ok.injEq] at h
    subst h
    have hb2 : baseReset
        ({ nd with
            data := some (readCsvModel nd files)
            train_interval := st.train_interval
            test_interval := st.test_interval
            sample_num := 0
            is_ready := true } : BNode).params
        (readCsvModel
          { nd with
            data := some (readCsvModel nd files)
            train_interval := st.train_interval
            test_interval := st.test_interval
            sample_num := 0
            is_ready := true } files) = .ok st := heq
    exact ⟨_, resetStep_of_baseReset _ files st hb2, rfl, rfl, rfl, rfl⟩

/-- C9 witness: the idempotence theorem applied at a concrete node and file
(12 loaded rows, minimum sample 10 rows). -/
theorem claim9_witness :
    ∃ nd2, resetStep ⟨⟨1, 10, 0⟩, some [0, 1, 2, 3, 4, 5, 6, 7, 8, 9, 10, 11],
        (0, 12), (12, 12), 0, true⟩ [[0, 1, 2, 3, 4, 5, 6, 7, 8, 9, 10, 11]] = .ok nd2 ∧
      nd2.train_interval = (BNode.mk ⟨1, 10, 0⟩ (some [0, 1, 2, 3, 4, 5, 6, 7, 8, 9, 10, 11])
        (0, 12) (12, 12) 0 true).train_interval ∧
      nd2.test_interval = (BNode.mk ⟨1, 10, 0⟩ (some [0, 1, 2, 3, 4, 5, 6, 7, 8, 9, 10, 11])
        (0, 12) (12, 12) 0 true).test_interval ∧
      nd2.sample_num = 0 ∧
      (BNode.mk ⟨1, 10, 0⟩ (some [0, 1, 2, 3, 4, 5, 6, 7, 8, 9, 10, 11])
        (0, 12) (12, 12) 0 true).sample_num = 0 :=
  claim9_reset_idempotent ⟨⟨1, 10, 0⟩, none, (7, 7), (9, 9), 4, false⟩
    [[0, 1, 2, 3, 4, 5, 6, 7, 8, 9, 10, 11]]
    ⟨⟨1, 10, 0⟩, some [0, 1, 2, 3, 4, 5, 6, 7, 8, 9, 10, 11], (0, 12), (12, 12), 0, true⟩
    (by decide)

/-- C10 witness: the containment theorem applied at a concrete accepted
sample. -/
theorem claim10_witness :
    (0 : ℤ) ≤ ((EpisodeSample.mk 0 [0, 1] 0).first_row : ℤ) ∧
    ((EpisodeSample.mk 0 [0, 1] 0).first_row : ℤ) +
      (SamplerCfg.mk 2 1 10 [0] false).sample_num_records ≤ 3 ∧
    (EpisodeSample.mk 0 [0, 1] 0).rows =
      (([0, 1, 2] : List ℕ).drop (EpisodeSample.mk 0 [0, 1] 0).first_row).take
        (SamplerCfg.mk 2 1 10 [0] false).sample_num_records :=
  claim10_start_containment [0, 1, 2] ⟨2, 1, 10, [0], false⟩ 1 1 0 3
    (fun _ => (0, 1)) ⟨0, [0, 1], 0⟩ (by decide) (fun _ => (by decide : ValidDraw (0, 1)))
    (by decide) (by decide) (by decide) (by decide)

end BTGym
